import Mathlib

/-!
Formal model of the AppointmentManagementSystem backend.

The document store is modelled as a `List Appointment` (respectively
`List Organization`); Mongo queries become `List.filter` / `List.countP` /
`List.find?`, a per-record `save` becomes replacement by `_id`, and fallible
queries are modelled by an `Except` argument whose `error` case stands for a
store failure caught by the surrounding `try/catch`.  JavaScript `Date`
values are modelled as milliseconds since the epoch (`Nat`), with the local
time zone taken as UTC.
-/

namespace AMS

/-- The `status` enum of the appointment schema:
`['pending', 'in-progress', 'completed', 'cancelled']`. -/
inductive Status where
  | pending
  | inProgress
  | completed
  | cancelled
deriving DecidableEq, Repr

/-- `status: { $in: ['pending', 'in-progress'] }`, the filter used by all
three queue-related store queries. -/
def Status.isActive : Status → Bool
  | .pending => true
  | .inProgress => true
  | _ => false

/-- An appointment document (`models/Appointment.js`).  Object ids are
modelled as `Nat`; `appointmentDate`, `createdAt` and `updatedAt` are
milliseconds since the epoch. -/
structure Appointment where
  id : Nat
  userId : Nat
  organizationId : Nat
  expertName : String
  serviceName : String
  appointmentDate : Nat
  appointmentTime : String
  status : Status
  queuePosition : Nat
  estimatedWaitTime : Int
  notes : String
  createdAt : Nat
  updatedAt : Nat
deriving DecidableEq, Repr

/-- One `workingHours` entry of the organization schema. -/
structure WorkingHour where
  day : String
  startTime : String
  endTime : String
  isOpen : Bool
deriving DecidableEq, Repr

/-- One `experts` entry of the organization schema. -/
structure Expert where
  name : String
  specialization : String
  available : Bool
deriving DecidableEq, Repr

/-- An organization document (`models/Organization.js`), restricted to the
fields the appointment logic reads. -/
structure Organization where
  id : Nat
  userId : Nat
  workingHours : List WorkingHour
  experts : List Expert
  appointmentDuration : Int
deriving DecidableEq, Repr

def msPerDay : Nat := 86400000

/-- `new Date(d); d.setHours(0, 0, 0, 0)` — local midnight of the day of `t`. -/
def startOfDay (t : Nat) : Nat := t / msPerDay * msPerDay

/-- `new Date(d); d.setHours(23, 59, 59, 999)` — end of the day of `t`. -/
def endOfDay (t : Nat) : Nat := startOfDay t + (msPerDay - 1)

/-- The calendar-day index of an instant. -/
def dayOf (t : Nat) : Nat := t / msPerDay

/-- The Mongo range condition `appointmentDate: { $gte: startOfDay, $lte: endOfDay }`. -/
def onDay (t d : Nat) : Bool := decide (startOfDay d ≤ t) && decide (t ≤ endOfDay d)

/-- The query filter shared by `calculateQueuePosition` and
`updateQueuePositions`: same organization, same day, active status. -/
def queueFilter (org d : Nat) (a : Appointment) : Bool :=
  decide (a.organizationId = org) && onDay a.appointmentDate d && a.status.isActive

/-- `calculateQueuePosition` (utils/queueUtils.js): count the active
appointments of the organization on the day and return `count + 1`; on a
store failure the `catch` returns `1`. -/
def calculateQueuePosition (org d : Nat) (store : Except Unit (List Appointment)) : Nat :=
  match store with
  | .error _ => 1
  | .ok db => db.countP (queueFilter org d) + 1

/-- `calculateEstimatedWaitTime` (utils/queueUtils.js):
`Math.max(0, (queuePosition - 1) * appointmentDuration)`. -/
def calculateEstimatedWaitTime (queuePosition : Int) (appointmentDuration : Int := 30) : Int :=
  max 0 ((queuePosition - 1) * appointmentDuration)

/-- The `findOne` filter of `isSlotAvailable`: same organization, same day,
identical time string, identical expert name, active status. -/
def slotFilter (org d : Nat) (t e : String) (a : Appointment) : Bool :=
  decide (a.organizationId = org) && onDay a.appointmentDate d &&
    decide (a.appointmentTime = t) && decide (a.expertName = e) && a.status.isActive

/-- `isSlotAvailable` (utils/queueUtils.js): true iff no conflicting active
appointment exists; on a store failure the `catch` returns `false`. -/
def isSlotAvailable (org d : Nat) (t e : String) (store : Except Unit (List Appointment)) : Bool :=
  match store with
  | .error _ => false
  | .ok db => (db.find? (slotFilter org d t e)).isNone

/-- `str.split(':')` on the character sequence: the list of colon-free
pieces (an empty string yields `[""]`, a trailing colon an empty last
piece), exactly as in JavaScript. -/
def splitCols : List Char → List (List Char)
  | [] => [[]]
  | c :: cs =>
    if c = ':' then [] :: splitCols cs
    else
      match splitCols cs with
      | [] => [[c]]
      | p :: ps => (c :: p) :: ps

/-- The value of one decimal digit character, `none` otherwise. -/
def digitVal? (c : Char) : Option Nat :=
  if '0' ≤ c ∧ c ≤ '9' then some (c.toNat - 48) else none

/-- `Number()` applied to one piece of a split time string: the empty
piece is `0`, a digit string is its value, anything else is `NaN`
(`none`). -/
def jsNumber (p : List Char) : Option Nat :=
  if p = [] then some 0
  else
    p.foldl (fun acc c =>
      match acc, digitVal? c with
      | some a, some dg => some (a * 10 + dg)
      | _, _ => none) (some 0)

/-- `timeToMinutes` from `isWithinWorkingHours`:
`const [hours, minutes] = timeStr.split(':').map(Number); hours * 60 + minutes`.
`none` models a `NaN` result (missing second component or non-numeric part). -/
def timeToMinutes (s : String) : Option Nat :=
  match splitCols s.data with
  | h :: m :: _ =>
    match jsNumber h, jsNumber m with
    | some hv, some mv => some (hv * 60 + mv)
    | _, _ => none
  | _ => none

def dayNames : List String :=
  ["Sunday", "Monday", "Tuesday", "Wednesday", "Thursday", "Friday", "Saturday"]

/-- `date.getDay()`: day 0 of the epoch was a Thursday. -/
def getDay (t : Nat) : Nat := (dayOf t + 4) % 7

/-- `dayNames[date.getDay()]`. -/
def dayName (t : Nat) : String := dayNames.getD (getDay t) ""

/-- `isWithinWorkingHours` (utils/queueUtils.js): find the first entry for
the weekday that is open; compare minutes inclusively at both ends, any
`NaN` comparison yielding `false`. -/
def isWithinWorkingHours (workingHours : List WorkingHour) (d : Nat) (t : String) : Bool :=
  match workingHours.find? (fun wh => decide (wh.day = dayName d) && wh.isOpen) with
  | none => false
  | some schedule =>
    match timeToMinutes t, timeToMinutes schedule.startTime, timeToMinutes schedule.endTime with
    | some appointmentMinutes, some startMinutes, some endMinutes =>
      decide (startMinutes ≤ appointmentMinutes) && decide (appointmentMinutes ≤ endMinutes)
    | _, _, _ => false

/-- A Mongoose `document.save()`: replace the stored document with the same
`_id`.  The `pre('save')` hook has already set `updatedAt` on `doc`. -/
def saveDoc (doc : Appointment) (db : List Appointment) : List Appointment :=
  db.map (fun a => if a.id = doc.id then doc else a)

/-- The `sort({ createdAt: 1 })` comparison. -/
def createdLe (a b : Appointment) : Bool := decide (a.createdAt ≤ b.createdAt)

/-- `appointments[i].queuePosition = i + 1; await appointments[i].save()`,
the `pre('save')` hook setting `updatedAt` to the current time. -/
def setPos (a : Appointment) (p : Nat) (now : Nat) : Appointment :=
  { a with queuePosition := p, updatedAt := now }

/-- `updateQueuePositions` (utils/queueUtils.js): fetch the active
appointments of the day sorted by creation time and persist position
`i + 1` for the `i`-th one, one save at a time. -/
def updateQueuePositions (org d now : Nat) (db : List Appointment) : List Appointment :=
  let appointments := (db.filter (queueFilter org d)).mergeSort createdLe
  appointments.enum.foldl (fun acc p => saveDoc (setPos p.2 (p.1 + 1) now) acc) db

/-- An error response: HTTP status code and message. -/
abbrev ApiError := Nat × String

/-- The request body of `bookAppointment`.  `none` and `""` both model a
JavaScript falsy field (absent or empty). -/
structure BookRequest where
  organizationId : Option Nat
  expertName : String
  serviceName : String
  appointmentDate : Option Nat
  appointmentTime : String
  notes : String
deriving DecidableEq, Repr

/-- `bookAppointment` (controllers/appointmentController.js).  `now` is the
current wall clock, `newId` the `_id` Mongo assigns to the created document.
Returns the response together with the resulting store. -/
def bookAppointment (user : Nat) (req : BookRequest) (orgs : List Organization)
    (db : List Appointment) (now newId : Nat) :
    Except ApiError Appointment × List Appointment :=
  if req.organizationId.isNone || req.expertName = "" || req.serviceName = "" ||
      req.appointmentDate.isNone || req.appointmentTime = "" then
    (.error (400, "Please provide all required fields"), db)
  else
    match req.organizationId, req.appointmentDate with
    | some oid, some d =>
      match orgs.find? (fun o => decide (o.id = oid)) with
      | none => (.error (404, "Organization not found"), db)
      | some org =>
        if d < startOfDay now then
          (.error (400, "Cannot book appointment in the past"), db)
        else if ! isWithinWorkingHours org.workingHours d req.appointmentTime then
          (.error (400, "Appointment time is outside working hours, on a day off, or organization is temporarily closed"), db)
        else
          match org.experts.find? (fun e => decide (e.name = req.expertName)) with
          | none => (.error (404, "Expert not found"), db)
          | some expert =>
            if ! expert.available then
              (.error (400, "Expert is not available"), db)
            else if ! isSlotAvailable oid d req.appointmentTime req.expertName (.ok db) then
              (.error (400, "Slot is already taken"), db)
            else
              let pos := calculateQueuePosition oid d (.ok db)
              let wait := calculateEstimatedWaitTime (pos : Int) org.appointmentDuration
              let appt : Appointment :=
                { id := newId, userId := user, organizationId := oid,
                  expertName := req.expertName, serviceName := req.serviceName,
                  appointmentDate := d, appointmentTime := req.appointmentTime,
                  status := .pending, queuePosition := pos, estimatedWaitTime := wait,
                  notes := req.notes, createdAt := now, updatedAt := now }
              (.ok appt, db ++ [appt])
    | _, _ => (.error (400, "Please provide all required fields"), db)

/-- `updateAppointmentStatus` (controllers/appointmentController.js): no
check of the current status; the new status is written unconditionally, and
a renumbering pass runs when it is `completed` or `cancelled`.  A missing
organization makes `organization.userId` throw, handled by the `catch` as a
500. -/
def updateAppointmentStatus (user apptId : Nat) (newStatus : Option Status)
    (orgs : List Organization) (db : List Appointment) (now : Nat) :
    Except ApiError Appointment × List Appointment :=
  match newStatus with
  | none => (.error (400, "Please provide status"), db)
  | some st =>
    match db.find? (fun a => decide (a.id = apptId)) with
    | none => (.error (404, "Appointment not found"), db)
    | some appt =>
      match orgs.find? (fun o => decide (o.id = appt.organizationId)) with
      | none => (.error (500, "Server error"), db)
      | some org =>
        if org.userId ≠ user then
          (.error (403, "Not authorized to update this appointment"), db)
        else
          let appt' := { appt with status := st, updatedAt := now }
          let db1 := saveDoc appt' db
          let db2 :=
            if st = .completed || st = .cancelled then
              updateQueuePositions appt.organizationId appt.appointmentDate now db1
            else db1
          (.ok appt', db2)

/-- `cancelAppointment` (controllers/appointmentController.js): owner-only;
rejects completed and already-cancelled appointments, otherwise persists
`cancelled` and renumbers the queue. -/
def cancelAppointment (user apptId : Nat) (db : List Appointment) (now : Nat) :
    Except ApiError Appointment × List Appointment :=
  match db.find? (fun a => decide (a.id = apptId)) with
  | none => (.error (404, "Appointment not found"), db)
  | some appt =>
    if appt.userId ≠ user then
      (.error (403, "Not authorized to cancel this appointment"), db)
    else if appt.status = .completed then
      (.error (400, "Cannot cancel completed appointment"), db)
    else if appt.status = .cancelled then
      (.error (400, "Appointment is already cancelled"), db)
    else
      let appt' := { appt with status := .cancelled, updatedAt := now }
      let db1 := saveDoc appt' db
      let db2 := updateQueuePositions appt.organizationId appt.appointmentDate now db1
      (.ok appt', db2)

/-- JavaScript string comparison (`<=` on strings): lexicographic over
UTF-16 code units.  All strings involved here are ASCII, so comparing
`Char.val` is faithful. -/
def strLe : List Char → List Char → Bool
  | [], _ => true
  | _ :: _, [] => false
  | a :: as, b :: bs =>
    if a.val < b.val then true
    else if b.val < a.val then false
    else strLe as bs

def jsStrLe (s t : String) : Bool := strLe s.data t.data

/-- The decimal digit character of `d < 10`. -/
def digitChar (d : Nat) : Char := Char.ofNat (48 + d)

/-- `String(n).padStart(2, '0')` for `n < 100`. -/
def pad2 (n : Nat) : String := String.mk [digitChar (n / 10), digitChar (n % 10)]

/-- `now.getHours()`. -/
def getHours (t : Nat) : Nat := t / 3600000 % 24

/-- `now.getMinutes()`. -/
def getMinutes (t : Nat) : Nat := t / 60000 % 60

/-- The `currentTime` template string of the `isCurrentlyOpen` virtual. -/
def currentTimeStr (t : Nat) : String :=
  pad2 (getHours t) ++ ":" ++ pad2 (getMinutes t)

/-- The `isCurrentlyOpen` virtual (models/Organization.js): find the first
open entry for today's weekday and compare the current time *string*
against the bounds with JavaScript string comparison. -/
def isCurrentlyOpen (workingHours : List WorkingHour) (now : Nat) : Bool :=
  match workingHours.find? (fun wh => decide (wh.day = dayName now) && wh.isOpen) with
  | none => false
  | some todaySchedule =>
    jsStrLe todaySchedule.startTime (currentTimeStr now) &&
      jsStrLe (currentTimeStr now) todaySchedule.endTime

/-! ### Basic query lemmas -/

/-- The `[startOfDay, endOfDay]` range test is exactly a calendar-day
equality. -/
lemma onDay_iff (t d : Nat) : onDay t d = true ↔ dayOf t = dayOf d := by
  simp only [onDay, Bool.and_eq_true, decide_eq_true_eq]
  unfold endOfDay startOfDay dayOf msPerDay
  omega

lemma isActive_iff (s : Status) :
    s.isActive = true ↔ s = .pending ∨ s = .inProgress := by
  cases s <;> simp [Status.isActive]

/-- C4: `calculateQueuePosition` returns one plus the number of stored
appointments of the organization on the same calendar day whose status is
pending or in-progress, and returns 1 when the count query fails. -/
theorem spec_C4 (org d : Nat) (db : List Appointment) :
    calculateQueuePosition org d (.ok db) =
      1 + db.countP (fun a => decide (a.organizationId = org) &&
        decide (dayOf a.appointmentDate = dayOf d) &&
        (decide (a.status = .pending) || decide (a.status = .inProgress))) ∧
    calculateQueuePosition org d (.error ()) = 1 := by
  refine ⟨?_, rfl⟩
  show db.countP (queueFilter org d) + 1 = _
  rw [Nat.add_comm]
  congr 1
  apply List.countP_congr
  intro a _
  simp only [queueFilter, Bool.and_eq_true, Bool.or_eq_true, decide_eq_true_eq,
    onDay_iff, isActive_iff]

/-- C5: `isSlotAvailable` is false exactly when a stored active appointment
matches the organization, calendar day, exact time string and exact expert
name, or the query failed; in particular stored appointments whose time
string differs never block a slot. -/
theorem spec_C5 (org d : Nat) (t e : String) (db : List Appointment) :
    (isSlotAvailable org d t e (.ok db) = false ↔
      ∃ a ∈ db, a.organizationId = org ∧ dayOf a.appointmentDate = dayOf d ∧
        a.appointmentTime = t ∧ a.expertName = e ∧
        (a.status = .pending ∨ a.status = .inProgress)) ∧
    isSlotAvailable org d t e (.error ()) = false ∧
    ((∀ a ∈ db, a.appointmentTime ≠ t) → isSlotAvailable org d t e (.ok db) = true) := by
  have hiff : ∀ a : Appointment, slotFilter org d t e a = true ↔
      (a.organizationId = org ∧ dayOf a.appointmentDate = dayOf d ∧
        a.appointmentTime = t ∧ a.expertName = e ∧
        (a.status = .pending ∨ a.status = .inProgress)) := by
    intro a
    simp only [slotFilter, Bool.and_eq_true, decide_eq_true_eq, onDay_iff, isActive_iff]
    tauto
  refine ⟨?_, rfl, ?_⟩
  · show (db.find? (slotFilter org d t e)).isNone = false ↔ _
    rcases hf : db.find? (slotFilter org d t e) with _ | a
    · simp only [Option.isNone_none]
      rw [List.find?_eq_none] at hf
      constructor
      · intro h; exact Bool.noConfusion h
      · rintro ⟨a, ha, hprop⟩
        exact absurd ((hiff a).mpr hprop) (hf a ha)
    · simp only [Option.isNone_some]
      constructor
      · intro _
        exact ⟨a, List.mem_of_find?_eq_some hf, (hiff a).mp (List.find?_some hf)⟩
      · intro _; trivial
  · intro hall
    show (db.find? (slotFilter org d t e)).isNone = true
    rw [Option.isNone_iff_eq_none, List.find?_eq_none]
    intro a ha hcontra
    exact hall a ha ((hiff a).mp hcontra).2.2.1

/-- C5 witness: in an empty store every slot is available. -/
theorem spec_C5_witness : isSlotAvailable 1 0 "10:00" "Dr. A" (.ok []) = true :=
  (spec_C5 1 0 "10:00" "Dr. A" []).2.2 (by simp)

/-- C7: `calculateEstimatedWaitTime` equals `(position − 1) × duration` for
positions at least 1 and nonnegative durations, and position 1 waits zero
minutes. -/
theorem spec_C7 (k d : Int) (hk : 1 ≤ k) (hd : 0 ≤ d) :
    calculateEstimatedWaitTime k d = (k - 1) * d ∧
    calculateEstimatedWaitTime 1 d = 0 := by
  constructor
  · unfold calculateEstimatedWaitTime
    exact max_eq_right (mul_nonneg (by omega) hd)
  · unfold calculateEstimatedWaitTime
    simp

/-- C7 witness at position 3, duration 30. -/
theorem spec_C7_witness :
    (1 : Int) ≤ 3 ∧ (0 : Int) ≤ 30 ∧
      (calculateEstimatedWaitTime 3 30 = (3 - 1) * 30 ∧
        calculateEstimatedWaitTime 1 30 = 0) :=
  ⟨by decide, by decide, spec_C7 3 30 (by decide) (by decide)⟩

lemma wh_pred_iff (d : Nat) (x : WorkingHour) :
    ((decide (x.day = dayName d) && x.isOpen) = true) ↔
      (x.day = dayName d ∧ x.isOpen = true) := by
  simp

/-- A decomposition `pre ++ e :: post` with no match in `pre` pins `e` down
as the result of `find?`. -/
lemma find?_first_of_split (d : Nat) (wh : List WorkingHour) (e : WorkingHour)
    (pre post : List WorkingHour) (hsplit : wh = pre ++ e :: post)
    (hpre : ∀ x ∈ pre, ¬(x.day = dayName d ∧ x.isOpen = true))
    (hday : e.day = dayName d) (hopen : e.isOpen = true) :
    wh.find? (fun x => decide (x.day = dayName d) && x.isOpen) = some e := by
  rw [List.find?_eq_some]
  refine ⟨(wh_pred_iff d e).mpr ⟨hday, hopen⟩, pre, post, hsplit, ?_⟩
  intro x hx
  have hnx := hpre x hx
  cases hc : (decide (x.day = dayName d) && x.isOpen) with
  | false => rfl
  | true => exact absurd ((wh_pred_iff d x).mp hc) hnx

/-- C6: `isWithinWorkingHours` is true exactly when the working-hours list
splits as `pre ++ e :: post` with no open entry for the weekday in `pre`
(so `e` is the *first* open entry for the date's weekday name), and the
three time strings convert to minutes with `start ≤ appointment ≤ end`,
inclusive at both boundaries; in particular it is false whenever no open
entry for the weekday exists. -/
theorem spec_C6 (wh : List WorkingHour) (d : Nat) (t : String) :
    (isWithinWorkingHours wh d t = true ↔
      ∃ e pre post, wh = pre ++ e :: post ∧
        (∀ x ∈ pre, ¬(x.day = dayName d ∧ x.isOpen = true)) ∧
        e.day = dayName d ∧ e.isOpen = true ∧
        ∃ a s en, timeToMinutes t = some a ∧ timeToMinutes e.startTime = some s ∧
          timeToMinutes e.endTime = some en ∧ s ≤ a ∧ a ≤ en) ∧
    ((∀ x ∈ wh, ¬(x.day = dayName d ∧ x.isOpen = true)) →
      isWithinWorkingHours wh d t = false) := by
  constructor
  · unfold isWithinWorkingHours
    split
    next heq =>
      constructor
      · intro h; exact Bool.noConfusion h
      · rintro ⟨e, pre, post, hsplit, hpre, hday, hopen, -⟩
        have hfind := find?_first_of_split d wh e pre post hsplit hpre hday hopen
        rw [heq] at hfind
        exact Option.noConfusion hfind
    next schedule heq =>
      have heq0 := heq
      rw [List.find?_eq_some] at heq0
      obtain ⟨hpe, pre, post, hsplit, hpre⟩ := heq0
      rw [wh_pred_iff] at hpe
      split
      next a s en hm hs hen =>
        simp only [Bool.and_eq_true, decide_eq_true_eq]
        constructor
        · rintro ⟨h1, h2⟩
          refine ⟨schedule, pre, post, hsplit, ?_, hpe.1, hpe.2,
            a, s, en, hm, hs, hen, h1, h2⟩
          intro x hx hc
          have h3 := hpre x hx
          rw [Bool.not_eq_eq_eq_not, Bool.not_true] at h3
          exact absurd ((wh_pred_iff d x).mpr hc) (by simp [h3])
        · rintro ⟨e', pre', post', hsplit', hpre', hday', hopen', a', s', en', hm', hs', hen', h1, h2⟩
          have hfind' := find?_first_of_split d wh e' pre' post' hsplit' hpre' hday' hopen'
          rw [heq] at hfind'
          obtain rfl : e' = schedule := (Option.some_injective _ hfind').symm
          rw [hm] at hm'; rw [hs] at hs'; rw [hen] at hen'
          obtain rfl := Option.some_injective _ hm'
          obtain rfl := Option.some_injective _ hs'
          obtain rfl := Option.some_injective _ hen'
          exact ⟨h1, h2⟩
      next hno =>
        constructor
        · intro h; exact Bool.noConfusion h
        · rintro ⟨e', pre', post', hsplit', hpre', hday', hopen', a', s', en', hm', hs', hen', h1, h2⟩
          have hfind' := find?_first_of_split d wh e' pre' post' hsplit' hpre' hday' hopen'
          rw [heq] at hfind'
          obtain rfl : e' = schedule := (Option.some_injective _ hfind').symm
          exact (hno a' s' en' hm' hs' hen').elim
  · intro hall
    unfold isWithinWorkingHours
    split
    next heq => rfl
    next schedule heq =>
      have he := List.mem_of_find?_eq_some heq
      have hp := List.find?_some heq
      exact absurd ((wh_pred_iff d schedule).mp hp) (hall schedule he)

/-! ### Renumbering machinery for C1, C2, C8, C10 -/

/-- The net effect of the save loop of `updateQueuePositions` on one stored
document: the first queued update with a matching `_id` wins. -/
def posAssign (now : Nat) (ps : List (Nat × Appointment)) (a : Appointment) : Appointment :=
  match ps.find? (fun p => decide (p.2.id = a.id)) with
  | some p => setPos p.2 (p.1 + 1) now
  | none => a

lemma setPos_id (a : Appointment) (k now : Nat) : (setPos a k now).id = a.id := rfl

lemma foldl_saveDoc_eq (now : Nat) :
    ∀ (ps : List (Nat × Appointment)) (db : List Appointment),
      (ps.map (fun p => p.2.id)).Nodup →
      ps.foldl (fun acc p => saveDoc (setPos p.2 (p.1 + 1) now) acc) db =
        db.map (posAssign now ps) := by
  intro ps
  induction ps with
  | nil =>
    intro db _
    simp only [List.foldl_nil]
    have h : ∀ a, posAssign now [] a = a := fun a => rfl
    calc db = db.map (fun a => a) := (List.map_id' db).symm
    _ = db.map (posAssign now []) := by
        apply List.map_congr_left
        intro a _
        exact (h a).symm
  | cons p ps ih =>
    intro db hnd
    simp only [List.map_cons, List.nodup_cons] at hnd
    simp only [List.foldl_cons]
    rw [ih _ hnd.2]
    unfold saveDoc
    rw [List.map_map]
    apply List.map_congr_left
    intro a _
    simp only [Function.comp_apply]
    by_cases hid : a.id = (setPos p.2 (p.1 + 1) now).id
    · rw [if_pos hid]
      rw [setPos_id] at hid
      have hfind : ps.find? (fun q => decide (q.2.id = (setPos p.2 (p.1 + 1) now).id)) = none := by
        rw [List.find?_eq_none]
        intro q hq
        simp only [setPos_id, decide_eq_true_eq]
        intro hcontra
        exact hnd.1 (hcontra ▸ List.mem_map_of_mem (fun r => r.2.id) hq)
      rw [posAssign, hfind]
      rw [posAssign, List.find?_cons]
      have : (decide (p.2.id = a.id)) = true := by rw [decide_eq_true_eq]; exact hid.symm
      rw [this]
    · rw [if_neg hid]
      rw [setPos_id] at hid
      rw [posAssign, posAssign, List.find?_cons]
      have : (decide (p.2.id = a.id)) = false := by
        rw [decide_eq_false_iff_not]
        exact fun hc => hid (hc ▸ rfl)
      rw [this]

lemma enumFrom_find?_of_nodup :
    ∀ (l : List Appointment) (n : Nat), ((l.map (fun a => a.id)).Nodup) →
      ∀ (i : Nat) (h : i < l.length),
        (l.enumFrom n).find? (fun p => decide (p.2.id = (l.get ⟨i, h⟩).id)) =
          some (n + i, l.get ⟨i, h⟩) := by
  intro l
  induction l with
  | nil => intro n _ i h; exact absurd h (Nat.not_lt_zero i)
  | cons x xs ih =>
    intro n hnd i h
    simp only [List.map_cons, List.nodup_cons] at hnd
    cases i with
    | zero =>
      simp [List.enumFrom, List.find?_cons, List.get]
    | succ i =>
      have hi : i < xs.length := Nat.lt_of_succ_lt_succ h
      simp only [List.enumFrom, List.find?_cons, List.get]
      have hne : (decide (x.id = (xs.get ⟨i, hi⟩).id)) = false := by
        rw [decide_eq_false_iff_not]
        intro hc
        exact hnd.1 (hc ▸ List.mem_map_of_mem (fun a => a.id) (List.get_mem xs i hi))
      rw [hne, ih (n + 1) hnd.2 i hi]
      have harith : n + 1 + i = n + (i + 1) := by omega
      rw [harith]

lemma sorted_ids_nodup (org d : Nat) (db : List Appointment)
    (hids : (db.map (fun a => a.id)).Nodup) :
    (((db.filter (queueFilter org d)).mergeSort createdLe).map (fun a => a.id)).Nodup := by
  have h1 : ((db.filter (queueFilter org d)).map (fun a => a.id)).Nodup :=
    (List.Sublist.map (fun a => a.id) (List.filter_sublist db)).nodup hids
  exact (((List.mergeSort_perm (db.filter (queueFilter org d)) createdLe).map
    (fun a => a.id)).symm).nodup h1

lemma enum_snd_ids (l : List Appointment) :
    l.enum.map (fun p => p.2.id) = l.map (fun a => a.id) := by
  rw [show (fun p : Nat × Appointment => p.2.id) = (fun a : Appointment => a.id) ∘ Prod.snd
    from rfl, ← List.map_map, List.enum_map_snd]

lemma updateQueuePositions_eq (org d now : Nat) (db : List Appointment)
    (hids : (db.map (fun a => a.id)).Nodup) :
    updateQueuePositions org d now db =
      db.map (posAssign now ((db.filter (queueFilter org d)).mergeSort createdLe).enum) := by
  unfold updateQueuePositions
  apply foldl_saveDoc_eq
  rw [enum_snd_ids]
  exact sorted_ids_nodup org d db hids

lemma posAssign_at_sorted (now : Nat) (l : List Appointment)
    (hnd : (l.map (fun a => a.id)).Nodup) (i : Nat) (h : i < l.length) :
    posAssign now l.enum (l.get ⟨i, h⟩) = setPos (l.get ⟨i, h⟩) (i + 1) now := by
  unfold posAssign
  rw [show l.enum = l.enumFrom 0 from rfl, enumFrom_find?_of_nodup l 0 hnd i h]
  show setPos (l.get ⟨i, h⟩) (0 + i + 1) now = setPos (l.get ⟨i, h⟩) (i + 1) now
  rw [Nat.zero_add]

lemma queueFilter_setPos (org d : Nat) (a : Appointment) (k now : Nat) :
    queueFilter org d (setPos a k now) = queueFilter org d a := rfl

lemma after_filter_eq (org d now : Nat) (db : List Appointment)
    (hids : (db.map (fun a => a.id)).Nodup) :
    (updateQueuePositions org d now db).filter (queueFilter org d) =
      (db.filter (queueFilter org d)).map
        (posAssign now ((db.filter (queueFilter org d)).mergeSort createdLe).enum) := by
  rw [updateQueuePositions_eq org d now db hids, List.filter_map]
  congr 1
  apply List.filter_congr
  intro a ha
  show queueFilter org d (posAssign now _ a) = queueFilter org d a
  unfold posAssign
  rcases hfind : (((db.filter (queueFilter org d)).mergeSort createdLe).enum.find?
      (fun p => decide (p.2.id = a.id))) with _ | p
  · rw [hfind]
  · rw [hfind]
    have hp2 : p.2 ∈ (db.filter (queueFilter org d)).mergeSort createdLe := by
      have hpmem := List.mem_of_find?_eq_some hfind
      have h2 := List.mem_map_of_mem Prod.snd hpmem
      rwa [List.enum_map_snd] at h2
    have hp2db : p.2 ∈ db :=
      List.mem_of_mem_filter
        (((List.mergeSort_perm (db.filter (queueFilter org d)) createdLe).mem_iff).mp hp2)
    have hpid : p.2.id = a.id := by
      have h3 := List.find?_some hfind
      rwa [decide_eq_true_eq] at h3
    have hpa : p.2 = a := List.inj_on_of_nodup_map hids hp2db ha hpid
    show queueFilter org d (setPos p.2 (p.1 + 1) now) = queueFilter org d a
    rw [queueFilter_setPos, hpa]

lemma createdLe_trans : ∀ a b c : Appointment,
    createdLe a b = true → createdLe b c = true → createdLe a c = true := by
  intro a b c
  simp only [createdLe, decide_eq_true_eq]
  omega

lemma createdLe_total : ∀ a b : Appointment, (createdLe a b || createdLe b a) = true := by
  intro a b
  simp only [createdLe, Bool.or_eq_true, decide_eq_true_eq]
  omega

/-- C1: after `updateQueuePositions(O, D)` on a store with distinct `_id`s,
the queue positions of the pending/in-progress appointments for `(O, D)`
are a permutation of `{1..N}` (`N` their number), and appointments created
earlier hold strictly smaller positions. -/
theorem spec_C1 (org d now : Nat) (db : List Appointment)
    (hids : (db.map (fun a => a.id)).Nodup) :
    (((updateQueuePositions org d now db).filter (queueFilter org d)).map
        (fun a => a.queuePosition)).Perm
      (List.range' 1
        (((updateQueuePositions org d now db).filter (queueFilter org d)).length)) ∧
    (∀ a ∈ (updateQueuePositions org d now db).filter (queueFilter org d),
      ∀ b ∈ (updateQueuePositions org d now db).filter (queueFilter org d),
        a.createdAt < b.createdAt → a.queuePosition < b.queuePosition) := by
  have hsnd : ((((db.filter (queueFilter org d)).mergeSort createdLe)).map
      (fun a => a.id)).Nodup := sorted_ids_nodup org d db hids
  have hq := after_filter_eq org d now db hids
  set sorted := (db.filter (queueFilter org d)).mergeSort createdLe with hsorted_def
  set f := posAssign now sorted.enum with hf_def
  have hperm : ((db.filter (queueFilter org d)).map f).Perm (sorted.map f) :=
    ((List.mergeSort_perm (db.filter (queueFilter org d)) createdLe).map f).symm
  have hat : ∀ (i : Nat) (h : i < sorted.length),
      f (sorted.get ⟨i, h⟩) = setPos (sorted.get ⟨i, h⟩) (i + 1) now :=
    fun i h => posAssign_at_sorted now sorted hsnd i h
  have hpairwise : List.Pairwise (fun a b => createdLe a b = true) sorted :=
    List.sorted_mergeSort createdLe_trans createdLe_total (db.filter (queueFilter org d))
  constructor
  · have hlen : ((updateQueuePositions org d now db).filter (queueFilter org d)).length =
        sorted.length := by
      rw [hq, List.length_map]
      exact ((List.mergeSort_perm (db.filter (queueFilter org d)) createdLe).length_eq).symm
    rw [hlen, hq]
    refine (hperm.map (fun a => a.queuePosition)).trans ?_
    rw [List.map_map]
    have hexplicit : sorted.map ((fun a => a.queuePosition) ∘ f) =
        List.range' 1 sorted.length := by
      apply List.ext_get
      · rw [List.length_map, List.length_range']
      · intro n h1 h2
        rw [List.get_map, List.get_range']
        have hn : n < sorted.length := by rwa [List.length_map] at h1
        show (f (sorted.get ⟨n, hn⟩)).queuePosition = 1 + 1 * n
        rw [hat n hn]
        show n + 1 = 1 + 1 * n
        omega
    rw [hexplicit]
  · intro a ha b hb hlt
    rw [hq] at ha hb
    obtain ⟨x, hx, hxa⟩ := List.mem_map.mp ((hperm.mem_iff).mp ha)
    obtain ⟨y, hy, hyb⟩ := List.mem_map.mp ((hperm.mem_iff).mp hb)
    obtain ⟨ia, hgx⟩ := List.mem_iff_get.mp hx
    obtain ⟨ib, hgy⟩ := List.mem_iff_get.mp hy
    have hfx : f x = setPos x (ia.1 + 1) now := by
      rw [← hgx]
      exact hat ia.1 ia.2
    have hfy : f y = setPos y (ib.1 + 1) now := by
      rw [← hgy]
      exact hat ib.1 ib.2
    rw [← hxa, ← hyb, hfx, hfy] at hlt
    rw [← hxa, ← hyb, hfx, hfy]
    have hlt' : x.createdAt < y.createdAt := hlt
    show ia.1 + 1 < ib.1 + 1
    rcases Nat.lt_trichotomy ia.1 ib.1 with h | h | h
    · omega
    · exfalso
      have hxy : x = y := by
        rw [← hgx, ← hgy]
        congr 1
        exact Fin.ext h
      rw [hxy] at hlt'
      exact Nat.lt_irrefl _ hlt'
    · exfalso
      have hrel := (List.pairwise_iff_get.mp hpairwise) ib ia h
      rw [hgx, hgy] at hrel
      simp only [createdLe, decide_eq_true_eq] at hrel
      omega

/-- Every document in the store after the save loop is either an untouched
original or a renumbered copy of a fetched appointment. -/
lemma mem_foldl_saveDoc (now : Nat) :
    ∀ (ps : List (Nat × Appointment)) (db : List Appointment) (b : Appointment),
      b ∈ ps.foldl (fun acc p => saveDoc (setPos p.2 (p.1 + 1) now) acc) db →
      b ∈ db ∨ ∃ p ∈ ps, b = setPos p.2 (p.1 + 1) now := by
  intro ps
  induction ps with
  | nil =>
    intro db b hb
    exact Or.inl hb
  | cons p ps ih =>
    intro db b hb
    simp only [List.foldl_cons] at hb
    rcases ih _ b hb with hmem | ⟨q, hq, hbq⟩
    · unfold saveDoc at hmem
      obtain ⟨a, ha, hab⟩ := List.mem_map.mp hmem
      by_cases hid : a.id = (setPos p.2 (p.1 + 1) now).id
      · rw [if_pos hid] at hab
        exact Or.inr ⟨p, List.mem_cons_self p ps, hab.symm⟩
      · rw [if_neg hid] at hab
        exact Or.inl (hab ▸ ha)
    · exact Or.inr ⟨q, List.mem_cons_of_mem p hq, hbq⟩

/-- Frame lemma: `updateQueuePositions` changes only `queuePosition` and
`updatedAt`; every other field of every stored document still belongs to a
document of the original store with the same id. -/
lemma updateQueuePositions_frame (org d now : Nat) (db : List Appointment) :
    ∀ b ∈ updateQueuePositions org d now db, ∃ a ∈ db,
      b.id = a.id ∧ b.userId = a.userId ∧ b.organizationId = a.organizationId ∧
      b.expertName = a.expertName ∧ b.serviceName = a.serviceName ∧
      b.appointmentDate = a.appointmentDate ∧ b.appointmentTime = a.appointmentTime ∧
      b.status = a.status ∧ b.estimatedWaitTime = a.estimatedWaitTime ∧
      b.notes = a.notes ∧ b.createdAt = a.createdAt := by
  intro b hb
  unfold updateQueuePositions at hb
  rcases mem_foldl_saveDoc now _ db b hb with hmem | ⟨p, hp, hbp⟩
  · exact ⟨b, hmem, rfl, rfl, rfl, rfl, rfl, rfl, rfl, rfl, rfl, rfl, rfl⟩
  · have hp2 : p.2 ∈ (db.filter (queueFilter org d)).mergeSort createdLe := by
      have h2 := List.mem_map_of_mem Prod.snd hp
      rwa [List.enum_map_snd] at h2
    have hp2db : p.2 ∈ db :=
      List.mem_of_mem_filter
        (((List.mergeSort_perm (db.filter (queueFilter org d)) createdLe).mem_iff).mp hp2)
    subst hbp
    exact ⟨p.2, hp2db, rfl, rfl, rfl, rfl, rfl, rfl, rfl, rfl, rfl, rfl, rfl⟩

/-- With distinct ids, renumbering never changes the status stored under a
given id. -/
lemma updateQueuePositions_status_eq (org d now : Nat) (db : List Appointment)
    (hids : (db.map (fun a => a.id)).Nodup) (a : Appointment) (ha : a ∈ db)
    (b : Appointment) (hb : b ∈ updateQueuePositions org d now db)
    (hid : b.id = a.id) : b.status = a.status := by
  obtain ⟨a', ha', hid', _, _, _, _, _, _, hst, _⟩ :=
    updateQueuePositions_frame org d now db b hb
  have : a' = a := List.inj_on_of_nodup_map hids ha' ha (by rw [← hid', hid])
  rw [hst, this]

/-- Demonstration store for C10: appointment 1 has been cancelled while
still holding position 1; appointment 2 is pending at position 2 with a
stored wait of 30 minutes. -/
def demoQueue : List Appointment :=
  [⟨1, 7, 1, "Dr. A", "svc", 1000, "10:00", .cancelled, 1, 0, "", 10, 10⟩,
   ⟨2, 8, 1, "Dr. A", "svc", 2000, "10:30", .pending, 2, 30, "", 20, 20⟩]

/-- The renumbering pass evaluated on the demonstration store: the
cancelled appointment is untouched, the pending one moves to position 1
while keeping its stored wait of 30 minutes. -/
lemma updateQueuePositions_demoQueue :
    updateQueuePositions 1 0 99 demoQueue =
      [⟨1, 7, 1, "Dr. A", "svc", 1000, "10:00", .cancelled, 1, 0, "", 10, 10⟩,
       ⟨2, 8, 1, "Dr. A", "svc", 2000, "10:30", .pending, 1, 30, "", 20, 99⟩] := by
  unfold updateQueuePositions
  rw [show demoQueue.filter (queueFilter 1 0) =
    [(⟨2, 8, 1, "Dr. A", "svc", 2000, "10:30", .pending, 2, 30, "", 20, 20⟩ : Appointment)]
    from by decide]
  rw [List.mergeSort_singleton]
  decide

/-- C10: renumbering rewrites only `queuePosition` (and the save hook's
`updatedAt`); every other field, `estimatedWaitTime` included, is carried
over unchanged — so after appointment 2 moves from position 2 to position
1 its stored wait of 30 minutes no longer equals
`(queuePosition − 1) × appointmentDuration = 0`. -/
theorem spec_C10 :
    (∀ (org d now : Nat) (db : List Appointment),
      ∀ b ∈ updateQueuePositions org d now db, ∃ a ∈ db,
        b.id = a.id ∧ b.userId = a.userId ∧ b.organizationId = a.organizationId ∧
        b.expertName = a.expertName ∧ b.serviceName = a.serviceName ∧
        b.appointmentDate = a.appointmentDate ∧ b.appointmentTime = a.appointmentTime ∧
        b.status = a.status ∧ b.estimatedWaitTime = a.estimatedWaitTime ∧
        b.notes = a.notes ∧ b.createdAt = a.createdAt) ∧
    (((updateQueuePositions 1 0 99 demoQueue).find? (fun a => decide (a.id = 2))).map
        (fun a => (a.queuePosition, a.estimatedWaitTime)) = some (1, 30) ∧
      (30 : Int) ≠ ((1 - 1) * 30 : Int)) :=
  ⟨fun org d now db => updateQueuePositions_frame org d now db,
    by rw [updateQueuePositions_demoQueue]; decide, by decide⟩

/-- C10 witness: the frame part applied to the demonstration store. -/
theorem spec_C10_witness :
    ∃ a ∈ demoQueue,
      (setPos (demoQueue.get ⟨1, by decide⟩) 1 99).id = a.id ∧
      (setPos (demoQueue.get ⟨1, by decide⟩) 1 99).userId = a.userId ∧
      (setPos (demoQueue.get ⟨1, by decide⟩) 1 99).organizationId = a.organizationId ∧
      (setPos (demoQueue.get ⟨1, by decide⟩) 1 99).expertName = a.expertName ∧
      (setPos (demoQueue.get ⟨1, by decide⟩) 1 99).serviceName = a.serviceName ∧
      (setPos (demoQueue.get ⟨1, by decide⟩) 1 99).appointmentDate = a.appointmentDate ∧
      (setPos (demoQueue.get ⟨1, by decide⟩) 1 99).appointmentTime = a.appointmentTime ∧
      (setPos (demoQueue.get ⟨1, by decide⟩) 1 99).status = a.status ∧
      (setPos (demoQueue.get ⟨1, by decide⟩) 1 99).estimatedWaitTime = a.estimatedWaitTime ∧
      (setPos (demoQueue.get ⟨1, by decide⟩) 1 99).notes = a.notes ∧
      (setPos (demoQueue.get ⟨1, by decide⟩) 1 99).createdAt = a.createdAt :=
  spec_C10.1 1 0 99 demoQueue (setPos (demoQueue.get ⟨1, by decide⟩) 1 99)
    (by rw [updateQueuePositions_demoQueue]; decide)

/-- C8: a completed appointment can never be cancelled by its owner, nor an
already-cancelled one; both attempts fail with the respective error and
leave the store exactly as it was. -/
theorem spec_C8 (u i now : Nat) (db : List Appointment) (a : Appointment)
    (hfind : db.find? (fun x => decide (x.id = i)) = some a) (hown : a.userId = u) :
    (a.status = .completed →
      cancelAppointment u i db now =
        (.error (400, "Cannot cancel completed appointment"), db)) ∧
    (a.status = .cancelled →
      cancelAppointment u i db now =
        (.error (400, "Appointment is already cancelled"), db)) := by
  refine ⟨fun hst => ?_, fun hst => ?_⟩
  · unfold cancelAppointment
    split
    next hnone => rw [hfind] at hnone; exact Option.noConfusion hnone
    next x hx =>
      have hxa : x = a := by
        rw [hfind] at hx
        exact (Option.some_injective _ hx).symm
      subst hxa
      rw [if_neg (fun hc => hc hown), if_pos hst]
  · unfold cancelAppointment
    split
    next hnone => rw [hfind] at hnone; exact Option.noConfusion hnone
    next x hx =>
      have hxa : x = a := by
        rw [hfind] at hx
        exact (Option.some_injective _ hx).symm
      subst hxa
      rw [if_neg (fun hc => hc hown),
        if_neg (by rw [hst]; intro hc; exact Status.noConfusion hc), if_pos hst]

/-- Demonstration documents for C2 and C8. -/
def demoOrg : Organization := ⟨1, 10, [], [], 30⟩

def demoCompleted : Appointment :=
  ⟨5, 7, 1, "Dr. A", "svc", 1000, "10:00", .completed, 0, 0, "", 10, 10⟩

/-- C8 witness at a concrete store. -/
theorem spec_C8_witness :
    (demoCompleted.status = .completed →
      cancelAppointment 7 5 [demoCompleted] 99 =
        (.error (400, "Cannot cancel completed appointment"), [demoCompleted])) ∧
    (demoCompleted.status = .cancelled →
      cancelAppointment 7 5 [demoCompleted] 99 =
        (.error (400, "Appointment is already cancelled"), [demoCompleted])) :=
  spec_C8 7 5 99 [demoCompleted] demoCompleted (by decide) rfl

/-- C2 counterexample: `updateAppointmentStatus` happily moves a completed
appointment back to `pending`, so `completed` is not absorbing. -/
theorem spec_C2_counterexample :
    demoCompleted.status = .completed ∧
    ((updateAppointmentStatus 10 5 (some .pending) [demoOrg] [demoCompleted] 99).2.find?
        (fun a => decide (a.id = 5))).map (fun a => a.status) = some .pending := by
  refine ⟨rfl, ?_⟩
  decide

lemma saveDoc_ids (doc : Appointment) (db : List Appointment) :
    (saveDoc doc db).map (fun a => a.id) = db.map (fun a => a.id) := by
  unfold saveDoc
  rw [List.map_map]
  apply List.map_congr_left
  intro a _
  show (if a.id = doc.id then doc else a).id = a.id
  by_cases h : a.id = doc.id
  · rw [if_pos h, h]
  · rw [if_neg h]

/-- Case analysis on the store returned by `cancelAppointment`: either one
of the guard branches left it untouched, or the found appointment was
active and a renumbering of the saved store is returned. -/
lemma cancelAppointment_db_cases (u i now : Nat) (db : List Appointment) :
    (cancelAppointment u i db now).2 = db ∨
    ∃ x, db.find? (fun a => decide (a.id = i)) = some x ∧
      x.status ≠ .completed ∧ x.status ≠ .cancelled ∧
      (cancelAppointment u i db now).2 =
        updateQueuePositions x.organizationId x.appointmentDate now
          (saveDoc { x with status := .cancelled, updatedAt := now } db) := by
  unfold cancelAppointment
  split
  next => exact Or.inl rfl
  next x hx =>
    split
    next => exact Or.inl rfl
    next h1 =>
      split
      next => exact Or.inl rfl
      next h2 =>
        split
        next => exact Or.inl rfl
        next h3 => exact Or.inr ⟨x, hx, h2, h3, rfl⟩

/-- C2 corrected: `completed` and `cancelled` are absorbing for
`bookAppointment` (which only appends a new document) and for
`cancelAppointment` (whose guards refuse them), but not for
`updateAppointmentStatus`, which overwrites any current status — it moves
the completed demonstration appointment back to `pending`. -/
theorem spec_C2_amended :
    (∀ (u i now : Nat) (db : List Appointment), (db.map (fun a => a.id)).Nodup →
      ∀ a ∈ db, a.status = .completed ∨ a.status = .cancelled →
      ∀ b ∈ (cancelAppointment u i db now).2, b.id = a.id → b.status = a.status) ∧
    (∀ (u : Nat) (req : BookRequest) (orgs : List Organization)
        (db : List Appointment) (now newId : Nat),
      ∀ a ∈ db, a ∈ (bookAppointment u req orgs db now newId).2) ∧
    ((updateAppointmentStatus 10 5 (some .pending) [demoOrg] [demoCompleted] 99).2.find?
        (fun a => decide (a.id = 5))).map (fun a => a.status) = some .pending := by
  refine ⟨?_, ?_, by decide⟩
  · intro u i now db hids a ha hst b hb hid
    rcases cancelAppointment_db_cases u i now db with hdb | ⟨x, hfind, hc1, hc2, hdb⟩
    · rw [hdb] at hb
      have hba : b = a := List.inj_on_of_nodup_map hids hb ha hid
      rw [hba]
    · rw [hdb] at hb
      have hids' : ((saveDoc { x with status := .cancelled, updatedAt := now } db).map
          (fun a => a.id)).Nodup := by
        rw [saveDoc_ids]
        exact hids
      by_cases hax : a.id = x.id
      · exfalso
        have hx : x ∈ db := List.mem_of_find?_eq_some hfind
        have hax' : a = x := List.inj_on_of_nodup_map hids ha hx hax
        rcases hst with h | h
        · exact hc1 (hax' ▸ h)
        · exact hc2 (hax' ▸ h)
      · have hamem : a ∈ saveDoc { x with status := .cancelled, updatedAt := now } db :=
          List.mem_map.mpr ⟨a, ha, if_neg hax⟩
        exact updateQueuePositions_status_eq _ _ now _ hids' a hamem b hb hid
  · intro u req orgs db now newId a ha
    unfold bookAppointment
    repeat' split
    all_goals first
      | exact ha
      | exact List.mem_append_left _ ha

/-- C2 amended witness: cancelling the completed demonstration appointment
leaves its status untouched. -/
theorem spec_C2_amended_witness :
    demoCompleted.status = demoCompleted.status :=
  spec_C2_amended.1 7 5 99 [demoCompleted] (by decide) demoCompleted (by decide)
    (Or.inl rfl) demoCompleted (by decide) rfl

deriving instance DecidableEq for Except

/-- C1 witness: the demonstration store has distinct ids, so its
renumbering satisfies C1. -/
theorem spec_C1_witness :
    (demoQueue.map (fun a => a.id)).Nodup ∧
    ((((updateQueuePositions 1 0 99 demoQueue).filter (queueFilter 1 0)).map
        (fun a => a.queuePosition)).Perm
      (List.range' 1
        (((updateQueuePositions 1 0 99 demoQueue).filter (queueFilter 1 0)).length)) ∧
    (∀ a ∈ (updateQueuePositions 1 0 99 demoQueue).filter (queueFilter 1 0),
      ∀ b ∈ (updateQueuePositions 1 0 99 demoQueue).filter (queueFilter 1 0),
        a.createdAt < b.createdAt → a.queuePosition < b.queuePosition)) :=
  ⟨by decide, spec_C1 1 0 99 demoQueue (by decide)⟩

/-- C3 counterexample: a request whose date lies strictly in the past but
whose `expertName` is empty fails with the missing-fields error, not the
past-date error. -/
theorem spec_C3_counterexample :
    dayOf 0 < dayOf 500000000000 ∧
    bookAppointment 7 ⟨some 1, "", "svc", some 0, "10:00", ""⟩ [demoOrg] [] 500000000000 5 ≠
      (.error (400, "Cannot book appointment in the past"), []) ∧
    bookAppointment 7 ⟨some 1, "", "svc", some 0, "10:00", ""⟩ [demoOrg] [] 500000000000 5 =
      (.error (400, "Please provide all required fields"), []) := by
  refine ⟨by decide, ?_, by decide⟩
  decide

/-- C3 corrected: once the required fields are present and the organization
exists (the two checks that run first), a date on a strictly earlier
calendar day than today always yields the past-date error, whatever the
remaining fields contain, and the store is untouched. -/
theorem spec_C3_amended (u : Nat) (req : BookRequest) (orgs : List Organization)
    (db : List Appointment) (now newId : Nat) (oid d : Nat) (org : Organization)
    (hoid : req.organizationId = some oid) (hexp : req.expertName ≠ "")
    (hsvc : req.serviceName ≠ "") (hdate : req.appointmentDate = some d)
    (htime : req.appointmentTime ≠ "")
    (horg : orgs.find? (fun o => decide (o.id = oid)) = some org)
    (hpast : dayOf d < dayOf now) :
    bookAppointment u req orgs db now newId =
      (.error (400, "Cannot book appointment in the past"), db) := by
  have hlt : d < startOfDay now := by
    unfold dayOf at hpast
    unfold startOfDay msPerDay at *
    omega
  unfold bookAppointment
  rw [hoid, hdate]
  rw [if_neg (by simp [hexp, hsvc, htime])]
  split
  next h1 h2 =>
    injection h1 with h1'
    injection h2 with h2'
    subst h1'
    subst h2'
    split
    next hnone => rw [horg] at hnone; exact Option.noConfusion hnone
    next org' horg' => rw [if_pos hlt]
  next hcatch => exact (hcatch oid d rfl rfl).elim

/-- C3 amended witness: a fully-populated request at an existing
organization with a past date. -/
theorem spec_C3_amended_witness :
    bookAppointment 7 ⟨some 1, "Dr. A", "svc", some 0, "10:00", ""⟩ [demoOrg] []
        500000000000 5 =
      (.error (400, "Cannot book appointment in the past"), []) :=
  spec_C3_amended 7 ⟨some 1, "Dr. A", "svc", some 0, "10:00", ""⟩ [demoOrg] []
    500000000000 5 1 0 demoOrg rfl (by decide) (by decide) rfl (by decide)
    (by decide) (by decide)

/-! ### String-comparison machinery for the `isCurrentlyOpen` virtual -/

/-- The five-character zero-padded `"HH:MM"` string with hour `h` and
minute `m`. -/
def timeStr (h m : Nat) : String :=
  String.mk [digitChar (h / 10), digitChar (h % 10), ':',
    digitChar (m / 10), digitChar (m % 10)]

lemma digitChar_lt_iff : ∀ x, x < 10 → ∀ y, y < 10 →
    (((digitChar x).val < (digitChar y).val) ↔ x < y) := by decide

lemma strLe_digit_cons (x y : Nat) (hx : x < 10) (hy : y < 10) (as bs : List Char) :
    strLe (digitChar x :: as) (digitChar y :: bs) =
      (if x < y then true else if y < x then false else strLe as bs) := by
  show (if (digitChar x).val < (digitChar y).val then true
    else if (digitChar y).val < (digitChar x).val then false else strLe as bs) = _
  rcases Nat.lt_trichotomy x y with h | h | h
  · rw [if_pos ((digitChar_lt_iff x hx y hy).mpr h), if_pos h]
  · subst h
    rw [if_neg (by rw [digitChar_lt_iff x hx x hx]; omega),
      if_neg (by rw [digitChar_lt_iff x hx x hx]; omega),
      if_neg (by omega), if_neg (by omega)]
  · rw [if_neg (by rw [digitChar_lt_iff x hx y hy]; omega),
      if_pos ((digitChar_lt_iff y hy x hx).mpr h), if_neg (by omega), if_pos h]

lemma strLe_colon_cons (as bs : List Char) :
    strLe (':' :: as) (':' :: bs) = strLe as bs := by
  show (if (':' : Char).val < (':' : Char).val then true
    else if (':' : Char).val < (':' : Char).val then false else strLe as bs) = _
  rw [if_neg (by decide), if_neg (by decide)]

/-- JavaScript string comparison agrees with clock order on zero-padded
`"HH:MM"` strings. -/
lemma strLe_timeStr (h m h' m' : Nat) (hh : h < 24) (hm : m < 60)
    (hh' : h' < 24) (hm' : m' < 60) :
    jsStrLe (timeStr h m) (timeStr h' m') = true ↔ h * 60 + m ≤ h' * 60 + m' := by
  show strLe
      [digitChar (h / 10), digitChar (h % 10), ':', digitChar (m / 10), digitChar (m % 10)]
      [digitChar (h' / 10), digitChar (h' % 10), ':', digitChar (m' / 10), digitChar (m' % 10)]
      = true ↔ _
  rw [strLe_digit_cons (h / 10) (h' / 10) (by omega) (by omega),
    strLe_digit_cons (h % 10) (h' % 10) (by omega) (by omega),
    strLe_colon_cons,
    strLe_digit_cons (m / 10) (m' / 10) (by omega) (by omega),
    strLe_digit_cons (m % 10) (m' % 10) (by omega) (by omega)]
  simp only [strLe]
  split_ifs <;> simp <;> omega

lemma getHours_lt (t : Nat) : getHours t < 24 := Nat.mod_lt _ (by omega)

lemma getMinutes_lt (t : Nat) : getMinutes t < 60 := Nat.mod_lt _ (by omega)

/-- The zero-padded template string of the virtual is exactly `timeStr`. -/
lemma currentTimeStr_eq (t : Nat) :
    currentTimeStr t = timeStr (getHours t) (getMinutes t) := rfl

/-- The schema-legal but unpadded working-hours entry used to refute C9:
Monday, 9:00–18:00 (the time regex `([0-1]?[0-9]|2[0-3]):[0-5][0-9]`
admits the single-digit hour). -/
def demoHours : List WorkingHour := [⟨"Monday", "9:00", "18:00", true⟩]

/-- C9 counterexample: on Monday 1970-01-05 at 10:00 the open entry
9:00–18:00 is matched and 10:00 lies inside the clock interval
[540, 1080] minutes, yet `isCurrentlyOpen` is false — the string
comparison puts `"10:00"` before `"9:00"`. -/
theorem spec_C9_counterexample :
    demoHours.find? (fun x => decide (x.day = dayName 381600000) && x.isOpen) =
      some ⟨"Monday", "9:00", "18:00", true⟩ ∧
    timeToMinutes "9:00" = some 540 ∧
    timeToMinutes (currentTimeStr 381600000) = some 600 ∧
    timeToMinutes "18:00" = some 1080 ∧
    540 ≤ 600 ∧ 600 ≤ 1080 ∧
    isCurrentlyOpen demoHours 381600000 = false := by decide

/-- C9 corrected: when every entry's bounds are zero-padded `"HH:MM"`
strings (the case where JavaScript string comparison coincides with clock
order), `isCurrentlyOpen` is true exactly when the first open entry for
the current weekday exists and the current time lies within its
`[startTime, endTime]` interval, inclusive at both ends.  (For unpadded
bounds such as `"9:00"` the string comparison diverges from clock order,
as the counterexample shows.) -/
theorem spec_C9_amended (wh : List WorkingHour) (now : Nat)
    (hwf : ∀ e ∈ wh,
      (∃ sh sm, sh < 24 ∧ sm < 60 ∧ e.startTime = timeStr sh sm) ∧
      (∃ eh em, eh < 24 ∧ em < 60 ∧ e.endTime = timeStr eh em)) :
    isCurrentlyOpen wh now = true ↔
      ∃ e, wh.find? (fun x => decide (x.day = dayName now) && x.isOpen) = some e ∧
        ∃ sh sm eh em, sh < 24 ∧ sm < 60 ∧ eh < 24 ∧ em < 60 ∧
          e.startTime = timeStr sh sm ∧ e.endTime = timeStr eh em ∧
          sh * 60 + sm ≤ getHours now * 60 + getMinutes now ∧
          getHours now * 60 + getMinutes now ≤ eh * 60 + em := by
  unfold isCurrentlyOpen
  split
  next heq =>
    constructor
    · intro h
      exact Bool.noConfusion h
    · rintro ⟨e, he, -⟩
      rw [heq] at he
      exact Option.noConfusion he
  next sched heq =>
    constructor
    · intro hop
      rw [Bool.and_eq_true] at hop
      obtain ⟨⟨sh, sm, hsh, hsm, hst⟩, ⟨eh, em, heh, hem, hen⟩⟩ :=
        hwf sched (List.mem_of_find?_eq_some heq)
      refine ⟨sched, heq, sh, sm, eh, em, hsh, hsm, heh, hem, hst, hen, ?_, ?_⟩
      · have h1 := hop.1
        rw [hst, currentTimeStr_eq] at h1
        exact (strLe_timeStr sh sm (getHours now) (getMinutes now) hsh hsm
          (getHours_lt now) (getMinutes_lt now)).mp h1
      · have h2 := hop.2
        rw [hen, currentTimeStr_eq] at h2
        exact (strLe_timeStr (getHours now) (getMinutes now) eh em
          (getHours_lt now) (getMinutes_lt now) heh hem).mp h2
    · rintro ⟨e, he, sh, sm, eh, em, hsh, hsm, heh, hem, hst, hen, h1, h2⟩
      have hes : e = sched := by
        rw [heq] at he
        exact (Option.some_injective _ he).symm
      subst hes
      rw [Bool.and_eq_true]
      constructor
      · rw [hst, currentTimeStr_eq]
        exact (strLe_timeStr sh sm (getHours now) (getMinutes now) hsh hsm
          (getHours_lt now) (getMinutes_lt now)).mpr h1
      · rw [hen, currentTimeStr_eq]
        exact (strLe_timeStr (getHours now) (getMinutes now) eh em
          (getHours_lt now) (getMinutes_lt now) heh hem).mpr h2

/-- The padded variant of the demonstration schedule. -/
def demoPadded : List WorkingHour := [⟨"Monday", "09:00", "18:00", true⟩]

/-- C9 amended witness: with padded bounds the virtual is decided by the
clock interval. -/
theorem spec_C9_amended_witness :
    isCurrentlyOpen demoPadded 381600000 = true ↔
      ∃ e, demoPadded.find? (fun x => decide (x.day = dayName 381600000) && x.isOpen) =
          some e ∧
        ∃ sh sm eh em, sh < 24 ∧ sm < 60 ∧ eh < 24 ∧ em < 60 ∧
          e.startTime = timeStr sh sm ∧ e.endTime = timeStr eh em ∧
          sh * 60 + sm ≤ getHours 381600000 * 60 + getMinutes 381600000 ∧
          getHours 381600000 * 60 + getMinutes 381600000 ≤ eh * 60 + em :=
  spec_C9_amended demoPadded 381600000 (by
    intro e he
    cases he with
    | head =>
      exact ⟨⟨9, 0, by omega, by omega, by decide⟩, ⟨18, 0, by omega, by omega, by decide⟩⟩
    | tail _ h => cases h)

/-- C6 witness: with no working-hours entries there is no open entry for
any weekday, so the check returns false. -/
theorem spec_C6_witness :
    isWithinWorkingHours [] 381600000 "10:00" = false :=
  (spec_C6 [] 381600000 "10:00").2 (by simp)

end AMS
